import Mathlib

/-
Verification of the interval-reconstruction core of arbtt-dump2timeline
(src/arbtt-dump2timeline.py, function convert_arbtt_dump).

Shallow embedding conventions:
* Timestamps are integers (milliseconds); the source parses ISO strings into
  timezone-aware datetimes, which the spec treats as an external collaborator
  (the Sample Source decodes), so samples here carry the parsed timestamp.
* The Python list `tasks` is kept MOST-RECENT-FIRST here (head = Python
  `tasks[-1]`), so Python append/pop at the tail become cons/tail at the head.
  `convert_arbtt_dump` reverses it back to chronological order at the end.
* The Python pop loop can raise (IndexError when the list empties mid-loop,
  TypeError when comparing a `None` Start against a datetime); both are caught
  by the bare `except`, which prints a diagnostic and skips the truncation.
  This is modelled by `popLoop` returning an exception flag, and diagnostics
  accumulate in the state (`diags`), mirroring the `print("FIXME", org_tasks)`.
-/

namespace ArbttTimeline

/-- One entry of a sample's `windows` list. -/
structure Window where
  active : Bool
  program : String
  title : String
deriving DecidableEq, Repr

/-- One arbtt sample: `date` is the parsed timestamp (ms), `inactive` the idle
counter in ms, `windows` the window list. -/
structure Sample where
  date : Int
  inactive : Int
  windows : List Window
deriving DecidableEq, Repr

/-- One produced task interval, mirroring the dict
`dict(Task=..., Start=..., Finish=..., Program=...)`. `Start` is an `Option`
because the source seeds `prev_timestamp = None` and uses it unguarded. -/
structure Task where
  Task : String
  Start : Option Int
  Finish : Int
  Program : String
deriving DecidableEq, Repr

/-- The state threaded through the per-sample loop of `convert_arbtt_dump`. -/
structure ConvState where
  tasks : List Task
  prev_title : Option (String × String)
  prev_timestamp : Option Int
  diags : List (List Task)
deriving Repr

def initState : ConvState := ⟨[], none, none, []⟩

/-- `next(((w['program'], w['title']) for w in sample['windows'] if w['active']), None)` -/
def activeTitle (s : Sample) : Option (String × String) :=
  (s.windows.find? (·.active)).map fun w => (w.program, w.title)

/-- `sample['inactive'] > inact_th*1000` (threshold in seconds vs. counter in ms). -/
def is_incative (inact_th : Int) (s : Sample) : Bool :=
  decide (inact_th * 1000 < s.inactive)

/-- The range filter `if roi_span_start and (timestamp<roi_span_start or
timestamp>roi_span_end): continue`. The source is only ever called with both
bounds or neither (see `__main__`); a lone start bound would raise a TypeError
in the source and is not modelled. -/
def inROI (roi_span_start roi_span_end : Option Int) (ts : Int) : Bool :=
  match roi_span_start, roi_span_end with
  | some s, some e => decide (s ≤ ts ∧ ts ≤ e)
  | some _, none => true
  | none, _ => true

/-- `while tasks[-1]["Start"] > remove_until: tasks.pop()`.  Returns the
remaining list and an exception flag: `true` when the list ran empty
(IndexError on `tasks[-1]`) or the top `Start` is `None` (TypeError on the
comparison). -/
def popLoop (tasks : List Task) (remove_until : Int) : List Task × Bool :=
  match tasks with
  | [] => ([], true)
  | t :: rest =>
    match t.Start with
    | none => (t :: rest, true)
    | some s => if remove_until < s then popLoop rest remove_until else (t :: rest, false)

/-- `if tasks[-1]["Program"]!="AFK" and tasks[-1]["Finish"]>remove_until:
tasks[-1]["Finish"] = remove_until` -/
def truncateLast (tasks : List Task) (remove_until : Int) : List Task :=
  match tasks with
  | [] => []
  | t :: rest =>
    if t.Program ≠ "AFK" ∧ remove_until < t.Finish then { t with Finish := remove_until } :: rest
    else t :: rest

/-- The guarded pop/truncate block (`if len(tasks)>0: try: ... except: ...`).
Second component: whether the bare `except` fired. -/
def popTruncate (tasks : List Task) (remove_until : Int) : List Task × Bool :=
  if tasks = [] then (tasks, false)
  else
    let p := popLoop tasks remove_until
    if p.2 then (p.1, true) else (truncateLast p.1 remove_until, false)

/-- `dict(Task="", Start=remove_until, Finish=timestamp, Program="AFK")` -/
def mkAFK (remove_until ts : Int) : Task :=
  ⟨"", some remove_until, ts, "AFK"⟩

/-- The `is_incative` branch of the loop body. -/
def idleStep (st : ConvState) (ts inactive : Int) : ConvState :=
  let remove_until := ts - inactive
  let p := popTruncate st.tasks remove_until
  { tasks := mkAFK remove_until ts :: p.1
    prev_title := none
    prev_timestamp := some ts
    diags := if p.2 then st.diags ++ [st.tasks] else st.diags }

/-- The `if active_title:` branch of the loop body. -/
def activeStep (st : ConvState) (pt : String × String) (ts : Int) : ConvState :=
  let s0 :=
    if st.prev_title = some pt then
      -- replace previous: `prev_timestamp = tasks[-1]["Start"]; tasks.pop()`
      match st.tasks with
      | t :: rest => (t.Start, rest)
      | [] => (st.prev_timestamp, [])  -- unreachable: prev_title is only ever set right after an append
    else (st.prev_timestamp, st.tasks)
  { tasks := ⟨pt.1 ++ " : " ++ pt.2, s0.1, ts, pt.1⟩ :: s0.2
    prev_title := some pt
    prev_timestamp := some ts
    diags := st.diags }

/-- One iteration of `for sample in data`. -/
def convertStep (inact_th : Int) (rs re : Option Int) (st : ConvState) (sample : Sample) :
    ConvState :=
  let ts := sample.date
  if inROI rs re ts = false then st
  else
    if is_incative inact_th sample then idleStep st ts sample.inactive
    else
      match activeTitle sample with
      | some pt => activeStep st pt ts
      | none => st

def runConvert (data : List Sample) (inact_th : Int) (rs re : Option Int) : ConvState :=
  data.foldl (convertStep inact_th rs re) initState

/-- `convert_arbtt_dump`: `None` when no tasks were produced, otherwise the
task list in chronological (append) order. -/
def convert_arbtt_dump (data : List Sample) (inact_th : Int) (rs re : Option Int) :
    Option (List Task) :=
  let st := runConvert data inact_th rs re
  if st.tasks = [] then none else some st.tasks.reverse

/-- Two intervals overlap when their interiors intersect (both starts present). -/
def Overlaps (a b : Task) : Prop :=
  ∃ sa sb, a.Start = some sa ∧ b.Start = some sb ∧ sa < b.Finish ∧ sb < a.Finish

/-! ### Basic step lemmas -/

lemma convertStep_skip (th : Int) (rs re : Option Int) (st : ConvState) (s : Sample)
    (h : inROI rs re s.date = false) : convertStep th rs re st s = st := by
  simp [convertStep, h]

lemma foldl_skip (th : Int) (rs re : Option Int) :
    ∀ (data : List Sample) (st : ConvState), (∀ s ∈ data, inROI rs re s.date = false) →
      data.foldl (convertStep th rs re) st = st := by
  intro data
  induction data with
  | nil => intro st _; rfl
  | cons s rest ih =>
    intro st h
    rw [List.foldl_cons, convertStep_skip th rs re st s (h s (List.mem_cons_self s rest))]
    exact ih st fun s' hs' => h s' (List.mem_cons_of_mem s hs')

/-! ### Claim theorems: counterexamples and the simpler claims -/

/-- Claim C1, counterexample: two consecutive idle samples with consistent idle
counters (idle at 10 with 5ms idle, idle at 12 with 7ms idle, threshold 0)
produce two AFK intervals [5,10] and [5,12] that overlap in time. -/
theorem overlap_counterexample :
    convert_arbtt_dump [⟨10, 5, []⟩, ⟨12, 7, []⟩] 0 none none =
      some [mkAFK 5 10, mkAFK 5 12] ∧ Overlaps (mkAFK 5 10) (mkAFK 5 12) :=
  ⟨by decide, 5, 5, rfl, rfl, by decide, by decide⟩

/-- Claim C2, counterexample: active window at 10, then idle at 12 with
idle counter 5 (cutoff 7, threshold 0).  The remaining last interval is not
AFK and its end 10 is strictly greater than the cutoff 7, yet its end is NOT
set to 7: the pop loop hits the null start, the bare except fires, and the
truncation is skipped. -/
theorem idle_truncation_counterexample :
    convert_arbtt_dump [⟨10, 0, [⟨true, "p", "t"⟩]⟩, ⟨12, 5, []⟩] 0 none none =
      some [⟨"p : t", none, 10, "p"⟩, mkAFK 7 12] ∧
    ("p" ≠ "AFK" ∧ (7 : Int) < 10 ∧ (10 : Int) ≠ 7) :=
  ⟨by decide, by decide⟩

/-- Claim C4, counterexample: three consecutive same-window samples at
10, 20, 30 coalesce into ONE interval, but its start is the null sentinel
(initial `prev_timestamp = None`), not t0 = 10. -/
theorem coalesce_start_counterexample :
    convert_arbtt_dump
        [⟨10, 0, [⟨true, "p", "t"⟩]⟩, ⟨20, 0, [⟨true, "p", "t"⟩]⟩,
         ⟨30, 0, [⟨true, "p", "t"⟩]⟩] 300 none none =
      some [⟨"p : t", none, 30, "p"⟩] ∧
    (⟨"p : t", none, 30, "p"⟩ : Task).Start ≠ some 10 :=
  ⟨by decide, by decide⟩

/-- Claim C5, counterexample: active A at t0 = 10, idle at t1 = 20 with
idle_ms = 7 (so ε = 3 > 0, cutoff = 13).  The active interval ends at 10,
not at t1 - idle_ms = 13, and a gap of ε remains before the AFK interval. -/
theorem idle_retro_counterexample :
    convert_arbtt_dump [⟨10, 0, [⟨true, "p", "t"⟩]⟩, ⟨20, 7, []⟩] 0 none none =
      some [⟨"p : t", none, 10, "p"⟩, mkAFK 13 20] ∧ (10 : Int) ≠ 20 - 7 :=
  ⟨by decide, by decide⟩

/-- Claim C8, counterexample: with window [0, 10] a sample at timestamp 10
(the end bound) IS processed — the source filter is inclusive on both ends,
not inclusive-exclusive (an exclusive end would yield `none` here). -/
theorem range_boundary_counterexample :
    convert_arbtt_dump [⟨10, 0, [⟨true, "p", "t"⟩]⟩] 300 (some 0) (some 10) =
      some [⟨"p : t", none, 10, "p"⟩] := by decide

/-- Claim C9, counterexample: a single non-idle active sample yields an
interval whose start is the null sentinel, not a timestamp. -/
theorem null_start_counterexample :
    convert_arbtt_dump [⟨10, 0, [⟨true, "p", "t"⟩]⟩] 300 none none =
      some [⟨"p : t", none, 10, "p"⟩] ∧
    (⟨"p : t", none, 10, "p"⟩ : Task).Start = none :=
  ⟨by decide, rfl⟩

/-- Claim C7: empty input yields the explicit "no data" signal (`none`);
input entirely excluded by the range filter yields `none`; and a `some`
result never carries an empty interval list, so "no data" is distinguishable
from every interval-bearing result. -/
theorem no_data_signal (data : List Sample) (th : Int) (rs re : Option Int) :
    convert_arbtt_dump [] th rs re = none ∧
    ((∀ s ∈ data, inROI rs re s.date = false) → convert_arbtt_dump data th rs re = none) ∧
    (∀ l, convert_arbtt_dump data th rs re = some l → l ≠ []) := by
  refine ⟨rfl, fun hall => ?_, fun l hl => ?_⟩
  · rw [convert_arbtt_dump, runConvert, foldl_skip th rs re data initState hall]
    rfl
  · rw [convert_arbtt_dump] at hl
    by_cases htasks : (runConvert data th rs re).tasks = []
    · rw [if_pos htasks] at hl
      exact absurd hl (by simp)
    · rw [if_neg htasks] at hl
      have : l = (runConvert data th rs re).tasks.reverse := by
        exact (Option.some.injEq _ _ ▸ hl).symm
      rw [this]
      simpa using htasks

/-- Witness for C7 at concrete inputs: a sample at timestamp 20 is outside the
window [0, 5], so the result is `none`; the empty input also gives `none`. -/
theorem no_data_signal_witness :
    convert_arbtt_dump [⟨20, 0, [⟨true, "p", "t"⟩]⟩] 300 (some 0) (some 5) = none ∧
    convert_arbtt_dump [] 300 none none = none :=
  ⟨(no_data_signal [⟨20, 0, [⟨true, "p", "t"⟩]⟩] 300 (some 0) (some 5)).2.1
      (by decide),
   (no_data_signal [] 300 none none).1⟩

/-- Claim C8 (amended): when both window bounds are supplied, a sample is
processed iff `start ≤ timestamp ≤ end` — inclusive on BOTH ends (not
inclusive-exclusive) — and a skipped out-of-window sample leaves the entire
state (intervals, previous window, previous boundary, diagnostics) unchanged. -/
theorem range_filter_amended (a b th : Int) (rs re : Option Int) (st : ConvState) (s : Sample) :
    (inROI (some a) (some b) s.date = true ↔ a ≤ s.date ∧ s.date ≤ b) ∧
    (inROI rs re s.date = false → convertStep th rs re st s = st) := by
  constructor
  · simp [inROI]
  · intro h; exact convertStep_skip th rs re st s h

/-- Witness for C8: timestamp 10 is inside [0, 10] (inclusive end), and a
sample at 20 outside [0, 10] leaves the initial state unchanged. -/
theorem range_filter_amended_witness :
    (inROI (some 0) (some 10) (10 : Int) = true ↔ (0 : Int) ≤ 10 ∧ (10 : Int) ≤ 10) ∧
    convertStep 300 (some 0) (some 10) initState ⟨20, 0, []⟩ = initState :=
  ⟨(range_filter_amended 0 10 300 (some 0) (some 10) initState ⟨10, 0, []⟩).1,
   (range_filter_amended 0 10 300 (some 0) (some 10) initState ⟨20, 0, []⟩).2 (by decide)⟩

/-! ### Length bounds for the pop/truncate block -/

lemma popLoop_length (c : Int) : ∀ L : List Task, (popLoop L c).1.length ≤ L.length := by
  intro L
  induction L with
  | nil => simp [popLoop]
  | cons t rest ih =>
    rw [popLoop]
    cases h : t.Start with
    | none => simp
    | some s =>
      by_cases hc : c < s
      · simpa [hc] using Nat.le_succ_of_le ih
      · simp [hc]

lemma truncateLast_length (c : Int) (L : List Task) : (truncateLast L c).length = L.length := by
  cases L with
  | nil => rfl
  | cons t rest =>
    rw [truncateLast]
    by_cases h : t.Program ≠ "AFK" ∧ c < t.Finish
    · simp [h]
    · simp [h]

lemma popTruncate_length (c : Int) (L : List Task) : (popTruncate L c).1.length ≤ L.length := by
  rw [popTruncate]
  by_cases hL : L = []
  · simp [hL]
  · rw [if_neg hL]
    by_cases hexc : (popLoop L c).2
    · simpa [hexc] using popLoop_length c L
    · simpa [hexc, truncateLast_length] using popLoop_length c L

/-- Claim C3: a sample is classified idle iff its idle counter exceeds
`threshold * 1000` (threshold in seconds against a millisecond counter), and
every in-range idle sample appends exactly one AFK interval, placed at the
top, with end = the sample's timestamp and start = timestamp - idle_ms; the
rest of the list only shrinks (nothing else is appended by that sample). -/
theorem idle_classification_and_afk_append (th : Int) (rs re : Option Int)
    (st : ConvState) (s : Sample) (hroi : inROI rs re s.date = true) :
    (is_incative th s = true ↔ th * 1000 < s.inactive) ∧
    (is_incative th s = true →
      ∃ kept, (convertStep th rs re st s).tasks = mkAFK (s.date - s.inactive) s.date :: kept ∧
        kept.length ≤ st.tasks.length) := by
  constructor
  · simp [is_incative]
  · intro hidle
    refine ⟨(popTruncate st.tasks (s.date - s.inactive)).1, ?_, popTruncate_length _ _⟩
    simp [convertStep, hroi, hidle, idleStep]

/-- Witness for C3: the idle sample at 12 with counter 5 and threshold 0. -/
theorem idle_classification_and_afk_append_witness :
    (is_incative 0 ⟨12, 5, []⟩ = true ↔ (0 : Int) * 1000 < 5) ∧
    (∃ kept,
      (convertStep 0 none none initState ⟨12, 5, []⟩).tasks =
        mkAFK ((12 : Int) - 5) 12 :: kept ∧ kept.length ≤ initState.tasks.length) :=
  ⟨(idle_classification_and_afk_append 0 none none initState ⟨12, 5, []⟩ (by decide)).1,
   (idle_classification_and_afk_append 0 none none initState ⟨12, 5, []⟩ (by decide)).2
     (by decide)⟩

/-- Claim C6: when the pop/truncate block of the idle branch hits an
inconsistent state (list emptied mid-loop, or a null start reached — the bare
`except`), the reconstruction does not abort: the anomaly is surfaced as a
diagnostic (the pre-pop task list is recorded), the AFK interval is still
appended on top of the best-effort remaining list, and the fold continues
with the remaining samples from that state. -/
theorem anomaly_recovery (th : Int) (rs re : Option Int) (st : ConvState) (s : Sample)
    (rest : List Sample) (hroi : inROI rs re s.date = true)
    (hidle : is_incative th s = true)
    (hanom : (popTruncate st.tasks (s.date - s.inactive)).2 = true) :
    (convertStep th rs re st s).diags = st.diags ++ [st.tasks] ∧
    (convertStep th rs re st s).tasks =
      mkAFK (s.date - s.inactive) s.date :: (popTruncate st.tasks (s.date - s.inactive)).1 ∧
    (s :: rest).foldl (convertStep th rs re) st =
      rest.foldl (convertStep th rs re) (convertStep th rs re st s) := by
  refine ⟨?_, ?_, rfl⟩ <;> simp [convertStep, hroi, hidle, idleStep, hanom]

/-- Witness for C6: a null-start task on the stack, an idle sample at 12, and
one further sample that is still processed. -/
theorem anomaly_recovery_witness :
    (convertStep 0 none none ⟨[⟨"p : t", none, 10, "p"⟩], none, some 10, []⟩
        ⟨12, 5, []⟩).diags = [] ++ [[⟨"p : t", none, 10, "p"⟩]] ∧
    (convertStep 0 none none ⟨[⟨"p : t", none, 10, "p"⟩], none, some 10, []⟩
        ⟨12, 5, []⟩).tasks =
      mkAFK ((12 : Int) - 5) 12 ::
        (popTruncate [⟨"p : t", none, 10, "p"⟩] ((12 : Int) - 5)).1 ∧
    ([⟨12, 5, []⟩, ⟨14, 6, []⟩] : List Sample).foldl (convertStep 0 none none)
        ⟨[⟨"p : t", none, 10, "p"⟩], none, some 10, []⟩ =
      ([⟨14, 6, []⟩] : List Sample).foldl (convertStep 0 none none)
        (convertStep 0 none none ⟨[⟨"p : t", none, 10, "p"⟩], none, some 10, []⟩
          ⟨12, 5, []⟩) :=
  anomaly_recovery 0 none none ⟨[⟨"p : t", none, 10, "p"⟩], none, some 10, []⟩
    ⟨12, 5, []⟩ [⟨14, 6, []⟩] (by decide) (by decide) (by decide)

/-! ### Step computations for single-active-window states -/

lemma activeTitle_single (p ttl : String) (d i : Int) :
    activeTitle ⟨d, i, [⟨true, p, ttl⟩]⟩ = some (p, ttl) := rfl

lemma convertStep_first_active (th : Int) (rs re : Option Int) (s : Sample) (p ttl : String)
    (hroi : inROI rs re s.date = true) (hni : is_incative th s = false)
    (hact : activeTitle s = some (p, ttl)) :
    convertStep th rs re initState s =
      ⟨[⟨p ++ " : " ++ ttl, none, s.date, p⟩], some (p, ttl), some s.date, []⟩ := by
  simp [convertStep, hroi, hni, hact, activeStep, initState]

lemma convertStep_coalesce (th : Int) (rs re : Option Int) (s : Sample)
    (p ttl lbl pr : String) (d : Int) (ds : List (List Task))
    (hroi : inROI rs re s.date = true) (hni : is_incative th s = false)
    (hact : activeTitle s = some (p, ttl)) :
    convertStep th rs re ⟨[⟨lbl, none, d, pr⟩], some (p, ttl), some d, ds⟩ s =
      ⟨[⟨p ++ " : " ++ ttl, none, s.date, p⟩], some (p, ttl), some s.date, ds⟩ := by
  simp [convertStep, hroi, hni, hact, activeStep]

lemma coalesce_run (th : Int) (rs re : Option Int) (p ttl : String) :
    ∀ (rest : List Sample) (d : Int) (ds : List (List Task)),
      (∀ s ∈ rest, inROI rs re s.date = true) →
      (∀ s ∈ rest, is_incative th s = false) →
      (∀ s ∈ rest, activeTitle s = some (p, ttl)) →
      ∃ d2, rest.foldl (convertStep th rs re)
          ⟨[⟨p ++ " : " ++ ttl, none, d, p⟩], some (p, ttl), some d, ds⟩ =
        ⟨[⟨p ++ " : " ++ ttl, none, d2, p⟩], some (p, ttl), some d2, ds⟩ := by
  intro rest
  induction rest with
  | nil => exact fun d ds _ _ _ => ⟨d, rfl⟩
  | cons s r ih =>
    intro d ds hroi hni hact
    rw [List.foldl_cons,
      convertStep_coalesce th rs re s p ttl (p ++ " : " ++ ttl) p d ds
        (hroi s (List.mem_cons_self s r)) (hni s (List.mem_cons_self s r))
        (hact s (List.mem_cons_self s r))]
    exact ih s.date ds (fun s' hs' => hroi s' (List.mem_cons_of_mem s hs'))
      (fun s' hs' => hni s' (List.mem_cons_of_mem s hs'))
      (fun s' hs' => hact s' (List.mem_cons_of_mem s hs'))

/-- Claim C10: when the first in-range sample is non-idle and carries an
active window, the appended interval has the null sentinel as its start (the
unguarded initial `prev_timestamp = None`), and coalescing further samples of
the same window keeps the single interval and its null start. -/
theorem first_interval_null_start (th : Int) (rs re : Option Int) (p ttl : String)
    (pre rest : List Sample) (s0 : Sample)
    (hpre : ∀ s ∈ pre, inROI rs re s.date = false)
    (hroi : ∀ s ∈ s0 :: rest, inROI rs re s.date = true)
    (hni : ∀ s ∈ s0 :: rest, is_incative th s = false)
    (hact : ∀ s ∈ s0 :: rest, activeTitle s = some (p, ttl)) :
    ∃ d, (runConvert (pre ++ s0 :: rest) th rs re).tasks =
      [⟨p ++ " : " ++ ttl, none, d, p⟩] := by
  rw [runConvert, List.foldl_append, foldl_skip th rs re pre initState hpre,
    List.foldl_cons,
    convertStep_first_active th rs re s0 p ttl (hroi s0 (List.mem_cons_self s0 rest))
      (hni s0 (List.mem_cons_self s0 rest)) (hact s0 (List.mem_cons_self s0 rest))]
  obtain ⟨d2, h⟩ := coalesce_run th rs re p ttl rest s0.date []
    (fun s' hs' => hroi s' (List.mem_cons_of_mem s0 hs'))
    (fun s' hs' => hni s' (List.mem_cons_of_mem s0 hs'))
    (fun s' hs' => hact s' (List.mem_cons_of_mem s0 hs'))
  exact ⟨d2, by rw [h]⟩

/-- Witness for C10: an out-of-window sample at 50, then two in-window
same-window samples at 10 and 20. -/
theorem first_interval_null_start_witness :
    ∃ d, (runConvert
        [⟨50, 0, []⟩, ⟨10, 0, [⟨true, "p", "t"⟩]⟩, ⟨20, 0, [⟨true, "p", "t"⟩]⟩]
        300 (some 0) (some 30)).tasks = [⟨"p" ++ " : " ++ "t", none, d, "p"⟩] :=
  first_interval_null_start 300 (some 0) (some 30) "p" "t" [⟨50, 0, []⟩]
    [⟨20, 0, [⟨true, "p", "t"⟩]⟩] ⟨10, 0, [⟨true, "p", "t"⟩]⟩
    (by decide) (by decide) (by decide) (by decide)

/-- Claim C4 (amended): three consecutive in-range non-idle samples sharing
the same active window coalesce into exactly ONE interval labeled for that
window with end t2 — but its start is the null initial-boundary sentinel,
not t0. -/
theorem coalesce_three_amended (p ttl : String) (t0 t1 t2 i0 i1 i2 th : Int)
    (h0 : is_incative th ⟨t0, i0, [⟨true, p, ttl⟩]⟩ = false)
    (h1 : is_incative th ⟨t1, i1, [⟨true, p, ttl⟩]⟩ = false)
    (h2 : is_incative th ⟨t2, i2, [⟨true, p, ttl⟩]⟩ = false) :
    convert_arbtt_dump
        [⟨t0, i0, [⟨true, p, ttl⟩]⟩, ⟨t1, i1, [⟨true, p, ttl⟩]⟩,
         ⟨t2, i2, [⟨true, p, ttl⟩]⟩] th none none =
      some [⟨p ++ " : " ++ ttl, none, t2, p⟩] := by
  rw [convert_arbtt_dump, runConvert, List.foldl_cons,
    convertStep_first_active th none none ⟨t0, i0, [⟨true, p, ttl⟩]⟩ p ttl rfl h0 rfl,
    List.foldl_cons,
    convertStep_coalesce th none none ⟨t1, i1, [⟨true, p, ttl⟩]⟩ p ttl
      (p ++ " : " ++ ttl) p t0 [] rfl h1 rfl,
    List.foldl_cons,
    convertStep_coalesce th none none ⟨t2, i2, [⟨true, p, ttl⟩]⟩ p ttl
      (p ++ " : " ++ ttl) p t1 [] rfl h2 rfl,
    List.foldl_nil]
  simp

/-- Witness for C4 (amended) at timestamps 10, 20, 30 with threshold 300. -/
theorem coalesce_three_amended_witness :
    convert_arbtt_dump
        [⟨10, 0, [⟨true, "p", "t"⟩]⟩, ⟨20, 0, [⟨true, "p", "t"⟩]⟩,
         ⟨30, 0, [⟨true, "p", "t"⟩]⟩] 300 none none =
      some [⟨"p" ++ " : " ++ "t", none, 30, "p"⟩] :=
  coalesce_three_amended "p" "t" 10 20 30 0 0 0 300 (by decide) (by decide) (by decide)

/-- Claim C5 (amended): for `[t0: active A, t1: idle]` the reconstructed
sequence has the active interval for A ending at t0 (its own sample
timestamp — NOT at t1 - idle_ms: the pop loop hits the interval's null start,
records an anomaly, and performs no truncation), followed by the AFK
interval from t1 - idle_ms to t1. -/
theorem idle_retro_amended (p ttl : String) (t0 t1 i0 i1 th : Int) (ws : List Window)
    (h0 : is_incative th ⟨t0, i0, [⟨true, p, ttl⟩]⟩ = false)
    (h1 : is_incative th ⟨t1, i1, ws⟩ = true) :
    convert_arbtt_dump [⟨t0, i0, [⟨true, p, ttl⟩]⟩, ⟨t1, i1, ws⟩] th none none =
      some [⟨p ++ " : " ++ ttl, none, t0, p⟩, mkAFK (t1 - i1) t1] := by
  rw [convert_arbtt_dump, runConvert, List.foldl_cons,
    convertStep_first_active th none none ⟨t0, i0, [⟨true, p, ttl⟩]⟩ p ttl rfl h0 rfl,
    List.foldl_cons]
  have hstep : convertStep th none none
      ⟨[⟨p ++ " : " ++ ttl, none, t0, p⟩], some (p, ttl), some t0, []⟩ ⟨t1, i1, ws⟩ =
      ⟨[mkAFK (t1 - i1) t1, ⟨p ++ " : " ++ ttl, none, t0, p⟩], none, some t1,
        [[⟨p ++ " : " ++ ttl, none, t0, p⟩]]⟩ := by
    simp [convertStep, inROI, h1, idleStep, popTruncate, popLoop]
  rw [hstep, List.foldl_nil]
  simp

/-- Witness for C5 (amended): active at 10, idle at 20 with counter 7. -/
theorem idle_retro_amended_witness :
    convert_arbtt_dump [⟨10, 0, [⟨true, "p", "t"⟩]⟩, ⟨20, 7, []⟩] 0 none none =
      some [⟨"p" ++ " : " ++ "t", none, 10, "p"⟩, mkAFK (20 - 7) 20] :=
  idle_retro_amended "p" "t" 10 20 0 7 0 [] (by decide) (by decide)

/-! ### The ordering invariant of the task stack

The task list is kept most-recent-first.  `Rel n o` relates a newer task `n`
to an older task `o` below it: every non-bottom task has a real start, and
the pair is disjoint-or-adjacent (`o.Finish ≤ n.Start`) unless `o` is the
null-start bottom interval or both are idle-branch AFK intervals (the one
configuration in which the source genuinely produces overlaps). -/

def Rel (n o : Task) : Prop :=
  match n.Start with
  | none => False
  | some sn =>
      o.Start = none ∨ (n.Task = "" ∧ n.Program = "AFK" ∧ o.Program = "AFK") ∨ o.Finish ≤ sn

lemma rel_none (n o : Task) (h : n.Start = none) : ¬ Rel n o := by
  simp [Rel, h]

lemma rel_some (n o : Task) (sn : Int) (h : n.Start = some sn) :
    Rel n o ↔
      (o.Start = none ∨ (n.Task = "" ∧ n.Program = "AFK" ∧ o.Program = "AFK") ∨
        o.Finish ≤ sn) := by
  simp [Rel, h]

lemma rel_start_ne_none (n o : Task) (h : Rel n o) : n.Start ≠ none :=
  fun hn => rel_none n o hn h

lemma rel_set_finish (n o : Task) (f : Int) (h : Rel n o) : Rel { n with Finish := f } o := by
  obtain ⟨nT, nS, nF, nP⟩ := n
  cases nS with
  | none => exact absurd h (rel_none _ o rfl)
  | some sn =>
    rw [rel_some _ o sn rfl] at h ⊢
    exact h

/-! ### Exact description of the pop loop -/

lemma popLoop_nil (c : Int) : popLoop [] c = ([], true) := rfl

lemma popLoop_cons_none (c : Int) (t : Task) (rest : List Task) (h : t.Start = none) :
    popLoop (t :: rest) c = (t :: rest, true) := by
  simp [popLoop, h]

lemma popLoop_cons_pop (c : Int) (t : Task) (rest : List Task) (sv : Int)
    (h : t.Start = some sv) (hc : c < sv) : popLoop (t :: rest) c = popLoop rest c := by
  simp [popLoop, h, hc]

lemma popLoop_cons_stop (c : Int) (t : Task) (rest : List Task) (sv : Int)
    (h : t.Start = some sv) (hc : ¬ c < sv) : popLoop (t :: rest) c = (t :: rest, false) := by
  simp [popLoop, h, hc]

/-- The pop loop removes exactly a trailing run of intervals whose (real)
starts are strictly greater than the cutoff. -/
lemma popLoop_decomp (c : Int) : ∀ L : List Task,
    ∃ removed, L = removed ++ (popLoop L c).1 ∧
      ∀ t ∈ removed, ∃ sv, t.Start = some sv ∧ c < sv := by
  intro L
  induction L with
  | nil => exact ⟨[], rfl, by simp⟩
  | cons t rest ih =>
    cases hs : t.Start with
    | none => exact ⟨[], by simp [popLoop_cons_none c t rest hs], by simp⟩
    | some sv =>
      by_cases hc : c < sv
      · obtain ⟨removed, hdec, hrem⟩ := ih
        refine ⟨t :: removed, ?_, ?_⟩
        · rw [popLoop_cons_pop c t rest sv hs hc, List.cons_append, ← hdec]
        · intro x hx
          rcases List.mem_cons.mp hx with rfl | hx
          · exact ⟨sv, hs, hc⟩
          · exact hrem x hx
      · exact ⟨[], by simp [popLoop_cons_stop c t rest sv hs hc], by simp⟩

/-- Normal termination: the loop stopped at a task with a real start ≤ cutoff. -/
lemma popLoop_false (c : Int) : ∀ L : List Task, (popLoop L c).2 = false →
    ∃ t rest sv, (popLoop L c).1 = t :: rest ∧ t.Start = some sv ∧ sv ≤ c := by
  intro L
  induction L with
  | nil => intro h; rw [popLoop_nil] at h; cases h
  | cons t rest ih =>
    intro h
    cases hs : t.Start with
    | none => rw [popLoop_cons_none c t rest hs] at h; cases h
    | some sv =>
      by_cases hc : c < sv
      · rw [popLoop_cons_pop c t rest sv hs hc] at h ⊢
        exact ih h
      · rw [popLoop_cons_stop c t rest sv hs hc]
        exact ⟨t, rest, sv, rfl, hs, not_lt.mp hc⟩

/-- Exceptional termination: IndexError (list emptied) or TypeError (null
start on top). -/
lemma popLoop_true (c : Int) : ∀ L : List Task, (popLoop L c).2 = true →
    (popLoop L c).1 = [] ∨ ∃ t rest, (popLoop L c).1 = t :: rest ∧ t.Start = none := by
  intro L
  induction L with
  | nil => intro _; left; rfl
  | cons t rest ih =>
    intro h
    cases hs : t.Start with
    | none => rw [popLoop_cons_none c t rest hs]; exact Or.inr ⟨t, rest, rfl, hs⟩
    | some sv =>
      by_cases hc : c < sv
      · rw [popLoop_cons_pop c t rest sv hs hc] at h ⊢
        exact ih h
      · rw [popLoop_cons_stop c t rest sv hs hc] at h
        cases h

/-! ### The fold invariant -/

lemma label_ne_empty (p ttl : String) : p ++ " : " ++ ttl ≠ "" := by
  intro h
  have hlen := congrArg String.length h
  rw [String.length_append, String.length_append] at hlen
  have h3 : (" : ").length = 3 := rfl
  rw [h3] at hlen
  have h0 : ("" : String).length = 0 := rfl
  rw [h0] at hlen
  omega

/-- State invariant of the per-sample fold; `b` bounds every timestamp
processed so far. -/
structure Inv (st : ConvState) (b : Int) : Prop where
  pw : st.tasks.Pairwise Rel
  headF : ∀ h r, st.tasks = h :: r → st.prev_timestamp = some h.Finish ∧ h.Finish ≤ b ∧
    ∀ t ∈ st.tasks, t.Finish ≤ h.Finish
  sLE : ∀ t ∈ st.tasks, ∀ sv, t.Start = some sv → sv ≤ t.Finish
  emptyPT : st.tasks = [] → st.prev_timestamp = none
  titleHead : ∀ pt : String × String, st.prev_title = some pt →
    ∃ h r, st.tasks = h :: r ∧ h.Task = pt.1 ++ " : " ++ pt.2

lemma inv_mono (st : ConvState) (b b' : Int) (h : Inv st b) (hb : b ≤ b') : Inv st b' :=
  ⟨h.pw,
   fun hd r hr => ⟨(h.headF hd r hr).1, le_trans (h.headF hd r hr).2.1 hb, (h.headF hd r hr).2.2⟩,
   h.sLE, h.emptyPT, h.titleHead⟩

lemma inv_init (b : Int) : Inv initState b := by
  refine ⟨?_, ?_, ?_, ?_, ?_⟩ <;> simp [initState]

/-- Everything the idle branch needs about the pop/truncate block. -/
lemma popTruncate_inv (tasks : List Task) (b c ts : Int)
    (hpw : tasks.Pairwise Rel)
    (hmax : ∀ t ∈ tasks, t.Finish ≤ b)
    (hsle : ∀ t ∈ tasks, ∀ sv, t.Start = some sv → sv ≤ t.Finish)
    (hb : b ≤ ts) (hcts : c ≤ ts) :
    (∀ o ∈ (popTruncate tasks c).1, Rel (mkAFK c ts) o) ∧
    (popTruncate tasks c).1.Pairwise Rel ∧
    (∀ t ∈ (popTruncate tasks c).1, t.Finish ≤ ts) ∧
    (∀ t ∈ (popTruncate tasks c).1, ∀ sv, t.Start = some sv → sv ≤ t.Finish) := by
  rw [popTruncate]
  by_cases h0 : tasks = []
  · simp [h0]
  · rw [if_neg h0]
    obtain ⟨removed, hdec, -⟩ := popLoop_decomp c tasks
    have hkept_mem : ∀ t ∈ (popLoop tasks c).1, t ∈ tasks := by
      intro t ht; rw [hdec]; exact List.mem_append_right removed ht
    have hkept_pw : (popLoop tasks c).1.Pairwise Rel :=
      ((List.pairwise_append.mp (hdec ▸ hpw)).2.1)
    by_cases hexc : (popLoop tasks c).2
    · rw [if_pos hexc]
      rcases popLoop_true c tasks hexc with hnil | ⟨t, rest, hcons, hts⟩
      · simp [hnil]
      · rw [hcons]
        have hrest : rest = [] := by
          have hall := (List.pairwise_cons.mp (hcons ▸ hkept_pw)).1
          cases rest with
          | nil => rfl
          | cons x xs =>
            exact absurd (hall x (List.mem_cons_self x xs)) (rel_none t x hts)
        subst hrest
        have htmem : t ∈ tasks := hkept_mem t (hcons ▸ List.mem_cons_self t [])
        refine ⟨?_, ?_, ?_, ?_⟩
        · intro o ho
          rcases List.mem_cons.mp ho with rfl | ho
          · rw [rel_some (mkAFK c ts) o c rfl]
            exact Or.inl hts
          · cases ho
        · exact List.pairwise_singleton _ _
        · intro x hx
          rcases List.mem_cons.mp hx with rfl | hx
          · exact le_trans (hmax x htmem) hb
          · cases hx
        · intro x hx sv hsv
          rcases List.mem_cons.mp hx with rfl | hx
          · exact hsle x htmem sv hsv
          · cases hx
    · rw [if_neg hexc]
      have hexc' : (popLoop tasks c).2 = false := by
        exact Bool.not_eq_true _ ▸ (by simpa using hexc)
      obtain ⟨t, rest, sv, hcons, hts, hsvc⟩ := popLoop_false c tasks hexc'
      have htmem : t ∈ tasks := hkept_mem t (hcons ▸ List.mem_cons_self t rest)
      have hrestmem : ∀ x ∈ rest, x ∈ tasks := by
        intro x hx; exact hkept_mem x (hcons ▸ List.mem_cons_of_mem t hx)
      have hhead := List.pairwise_cons.mp (hcons ▸ hkept_pw)
      -- the new AFK interval sits cleanly on every survivor below the top
      have hafk_rest : ∀ x ∈ rest, Rel (mkAFK c ts) x := by
        intro x hx
        have hrel := hhead.1 x hx
        rw [rel_some t x sv hts] at hrel
        rw [rel_some (mkAFK c ts) x c rfl]
        rcases hrel with hx0 | ⟨-, -, hxP⟩ | hxF
        · exact Or.inl hx0
        · exact Or.inr (Or.inl ⟨rfl, rfl, hxP⟩)
        · exact Or.inr (Or.inr (le_trans hxF hsvc))
      rw [hcons, truncateLast]
      by_cases htr : t.Program ≠ "AFK" ∧ c < t.Finish
      · rw [if_pos htr]
        refine ⟨?_, ?_, ?_, ?_⟩
        · intro o ho
          rcases List.mem_cons.mp ho with rfl | ho
          · rw [rel_some (mkAFK c ts) _ c rfl]
            refine Or.inr (Or.inr ?_)
            have : ({ t with Finish := c } : Task).Finish = c := by
              obtain ⟨tT, tS, tF, tP⟩ := t; rfl
            rw [this]
          · exact hafk_rest o ho
        · rw [List.pairwise_cons]
          exact ⟨fun x hx => rel_set_finish t x c (hhead.1 x hx), hhead.2⟩
        · intro x hx
          rcases List.mem_cons.mp hx with rfl | hx
          · have : ({ t with Finish := c } : Task).Finish = c := by
              obtain ⟨tT, tS, tF, tP⟩ := t; rfl
            rw [this]; exact hcts
          · exact le_trans (hmax x (hrestmem x hx)) hb
        · intro x hx sv' hsv'
          rcases List.mem_cons.mp hx with rfl | hx
          · obtain ⟨tT, tS, tF, tP⟩ := t
            simp only at hsv' hts
            rw [hts] at hsv'
            cases hsv'
            exact hsvc
          · exact hsle x (hrestmem x hx) sv' hsv'
      · rw [if_neg htr]
        have htr' : t.Program = "AFK" ∨ t.Finish ≤ c := by
          rcases not_and_or.mp htr with hA | hB
          · exact Or.inl (not_not.mp hA)
          · exact Or.inr (not_lt.mp hB)
        refine ⟨?_, ?_, ?_, ?_⟩
        · intro o ho
          rcases List.mem_cons.mp ho with rfl | ho
          · rw [rel_some (mkAFK c ts) o c rfl]
            rcases htr' with hA | hB
            · exact Or.inr (Or.inl ⟨rfl, rfl, hA⟩)
            · exact Or.inr (Or.inr hB)
          · exact hafk_rest o ho
        · exact hcons ▸ hkept_pw
        · intro x hx
          rcases List.mem_cons.mp hx with rfl | hx
          · exact le_trans (hmax x htmem) hb
          · exact le_trans (hmax x (hrestmem x hx)) hb
        · intro x hx sv' hsv'
          rcases List.mem_cons.mp hx with rfl | hx
          · exact hsle x htmem sv' hsv'
          · exact hsle x (hrestmem x hx) sv' hsv'

lemma inv_idleStep (st : ConvState) (b ts inact : Int) (hInv : Inv st b)
    (hb : b ≤ ts) (hian : 0 ≤ inact) : Inv (idleStep st ts inact) ts := by
  have hmax : ∀ t ∈ st.tasks, t.Finish ≤ b := by
    cases htasks : st.tasks with
    | nil => intro t ht; cases ht
    | cons hd r =>
      intro t ht
      have hh := hInv.headF hd r htasks
      refine le_trans (hh.2.2 t ?_) hh.2.1
      rw [htasks]
      exact ht
  have hcts : ts - inact ≤ ts := by omega
  obtain ⟨hafk, hpw2, hmax2, hsle2⟩ :=
    popTruncate_inv st.tasks b (ts - inact) ts hInv.pw hmax hInv.sLE hb hcts
  have htasks' : (idleStep st ts inact).tasks =
      mkAFK (ts - inact) ts :: (popTruncate st.tasks (ts - inact)).1 := rfl
  refine ⟨?_, ?_, ?_, ?_, ?_⟩
  · rw [htasks', List.pairwise_cons]
    exact ⟨hafk, hpw2⟩
  · intro hd r hr
    rw [htasks'] at hr
    injection hr with h1 h2
    subst h1
    subst h2
    refine ⟨rfl, le_refl ts, ?_⟩
    intro t ht
    rw [htasks'] at ht
    rcases List.mem_cons.mp ht with rfl | ht
    · exact le_refl _
    · exact hmax2 t ht
  · intro t ht sv hsv
    rw [htasks'] at ht
    rcases List.mem_cons.mp ht with rfl | ht
    · have h' := Option.some.inj hsv
      rw [← h']
      exact hcts
    · exact hsle2 t ht sv hsv
  · intro habs
    rw [htasks'] at habs
    cases habs
  · intro pt hpt
    cases hpt

lemma inv_activeStep (st : ConvState) (b ts : Int) (pt : String × String)
    (hInv : Inv st b) (hb : b ≤ ts) : Inv (activeStep st pt ts) ts := by
  by_cases hco : st.prev_title = some pt
  · obtain ⟨hd, r, htasks, hlbl⟩ := hInv.titleHead pt hco
    have hpwold := List.pairwise_cons.mp (htasks ▸ hInv.pw)
    have hheadold := hInv.headF hd r htasks
    have hstep : activeStep st pt ts =
        ⟨⟨pt.1 ++ " : " ++ pt.2, hd.Start, ts, pt.1⟩ :: r, some pt, some ts, st.diags⟩ := by
      simp [activeStep, hco, htasks]
    rw [hstep]
    refine ⟨?_, ?_, ?_, ?_, ?_⟩
    · rw [List.pairwise_cons]
      refine ⟨?_, hpwold.2⟩
      intro x hx
      cases hsd : hd.Start with
      | none => exact absurd (hpwold.1 x hx) (rel_none hd x hsd)
      | some sh =>
        rw [rel_some _ x sh rfl]
        have hrel := hpwold.1 x hx
        rw [rel_some hd x sh hsd] at hrel
        rcases hrel with hx0 | ⟨hT, -, -⟩ | hxF
        · exact Or.inl hx0
        · exact absurd (hlbl.symm.trans hT) (label_ne_empty pt.1 pt.2)
        · exact Or.inr (Or.inr hxF)
    · intro hd' r' hr'
      injection hr' with h1 h2
      subst h1
      subst h2
      refine ⟨rfl, le_refl ts, ?_⟩
      intro t ht
      rcases List.mem_cons.mp ht with rfl | ht
      · exact le_refl _
      · refine le_trans (le_trans (hheadold.2.2 t ?_) hheadold.2.1) hb
        rw [htasks]
        exact List.mem_cons_of_mem hd ht
    · intro t ht sv hsv
      rcases List.mem_cons.mp ht with rfl | ht
      · have h1 : sv ≤ hd.Finish := by
          refine hInv.sLE hd ?_ sv hsv
          rw [htasks]
          exact List.mem_cons_self hd r
        exact le_trans h1 (le_trans hheadold.2.1 hb)
      · refine hInv.sLE t ?_ sv hsv
        rw [htasks]
        exact List.mem_cons_of_mem hd ht
    · intro habs
      cases habs
    · intro pt' hpt'
      injection hpt' with h'
      subst h'
      exact ⟨_, _, rfl, rfl⟩
  · cases htasks : st.tasks with
    | nil =>
      have hpt0 : st.prev_timestamp = none := hInv.emptyPT htasks
      have hstep : activeStep st pt ts =
          ⟨[⟨pt.1 ++ " : " ++ pt.2, none, ts, pt.1⟩], some pt, some ts, st.diags⟩ := by
        simp [activeStep, hco, htasks, hpt0]
      rw [hstep]
      refine ⟨?_, ?_, ?_, ?_, ?_⟩
      · exact List.pairwise_singleton _ _
      · intro hd' r' hr'
        injection hr' with h1 h2
        subst h1
        subst h2
        refine ⟨rfl, le_refl ts, ?_⟩
        intro t ht
        rcases List.mem_cons.mp ht with rfl | ht
        · exact le_refl _
        · cases ht
      · intro t ht sv hsv
        rcases List.mem_cons.mp ht with rfl | ht
        · cases hsv
        · cases ht
      · intro habs
        cases habs
      · intro pt' hpt'
        injection hpt' with h'
        subst h'
        exact ⟨_, _, rfl, rfl⟩
    | cons hd r =>
      have hheadold := hInv.headF hd r htasks
      have hstep : activeStep st pt ts =
          ⟨⟨pt.1 ++ " : " ++ pt.2, some hd.Finish, ts, pt.1⟩ :: hd :: r, some pt, some ts,
            st.diags⟩ := by
        simp [activeStep, hco, htasks, hheadold.1]
      rw [hstep]
      refine ⟨?_, ?_, ?_, ?_, ?_⟩
      · rw [List.pairwise_cons]
        constructor
        · intro x hx
          rw [rel_some _ x hd.Finish rfl]
          refine Or.inr (Or.inr (hheadold.2.2 x ?_))
          rw [htasks]
          exact hx
        · rw [← htasks]
          exact hInv.pw
      · intro hd' r' hr'
        injection hr' with h1 h2
        subst h1
        subst h2
        refine ⟨rfl, le_refl ts, ?_⟩
        intro t ht
        rcases List.mem_cons.mp ht with rfl | ht
        · exact le_refl _
        · refine le_trans (le_trans (hheadold.2.2 t ?_) hheadold.2.1) hb
          rw [htasks]
          exact ht
      · intro t ht sv hsv
        rcases List.mem_cons.mp ht with rfl | ht
        · have h' := Option.some.inj hsv
          rw [← h']
          exact le_trans hheadold.2.1 hb
        · refine hInv.sLE t ?_ sv hsv
          rw [htasks]
          exact ht
      · intro habs
        cases habs
      · intro pt' hpt'
        injection hpt' with h'
        subst h'
        exact ⟨_, _, rfl, rfl⟩

lemma inv_convertStep (th : Int) (rs re : Option Int) (st : ConvState) (b : Int) (s : Sample)
    (hInv : Inv st b) (hb : b ≤ s.date) (hian : 0 ≤ s.inactive) :
    Inv (convertStep th rs re st s) s.date := by
  by_cases hroi : inROI rs re s.date = false
  · rw [convertStep_skip th rs re st s hroi]
    exact inv_mono st b s.date hInv hb
  · have hroi' : inROI rs re s.date = true := by
      revert hroi
      cases inROI rs re s.date <;> simp
    by_cases hidle : is_incative th s = true
    · have hred : convertStep th rs re st s = idleStep st s.date s.inactive := by
        simp [convertStep, hroi', hidle]
      rw [hred]
      exact inv_idleStep st b s.date s.inactive hInv hb hian
    · have hidle' : is_incative th s = false := by
        revert hidle
        cases is_incative th s <;> simp
      cases hact : activeTitle s with
      | some pt =>
        have hred : convertStep th rs re st s = activeStep st pt s.date := by
          simp [convertStep, hroi', hidle', hact]
        rw [hred]
        exact inv_activeStep st b s.date pt hInv hb
      | none =>
        have hred : convertStep th rs re st s = st := by
          simp [convertStep, hroi', hidle', hact]
        rw [hred]
        exact inv_mono st b s.date hInv hb

lemma inv_foldl (th : Int) (rs re : Option Int) :
    ∀ (data : List Sample) (st : ConvState) (b : Int), Inv st b →
      (∀ s ∈ data, b ≤ s.date) →
      data.Pairwise (fun a a' => a.date ≤ a'.date) →
      (∀ s ∈ data, 0 ≤ s.inactive) →
      ∃ b2, Inv (data.foldl (convertStep th rs re) st) b2 := by
  intro data
  induction data with
  | nil => exact fun st b h _ _ _ => ⟨b, h⟩
  | cons s rest ih =>
    intro st b hInv hb hsort hnn
    rw [List.foldl_cons]
    refine ih (convertStep th rs re st s) s.date
      (inv_convertStep th rs re st b s hInv (hb s (List.mem_cons_self s rest))
        (hnn s (List.mem_cons_self s rest))) ?_ (List.pairwise_cons.mp hsort).2 ?_
    · exact (List.pairwise_cons.mp hsort).1
    · exact fun s' hs' => hnn s' (List.mem_cons_of_mem s hs')

lemma inv_runConvert (data : List Sample) (th : Int) (rs re : Option Int)
    (hsort : data.Pairwise (fun a a' => a.date ≤ a'.date))
    (hnn : ∀ s ∈ data, 0 ≤ s.inactive) :
    ∃ b2, Inv (runConvert data th rs re) b2 := by
  cases data with
  | nil => exact ⟨0, inv_init 0⟩
  | cons s rest =>
    refine inv_foldl th rs re (s :: rest) initState s.date (inv_init s.date) ?_ hsort hnn
    intro s' hs'
    rcases List.mem_cons.mp hs' with rfl | hs'
    · exact le_refl _
    · exact (List.pairwise_cons.mp hsort).1 s' hs'

lemma convert_some (data : List Sample) (th : Int) (rs re : Option Int) (l : List Task)
    (h : convert_arbtt_dump data th rs re = some l) :
    l = (runConvert data th rs re).tasks.reverse := by
  simp only [convert_arbtt_dump] at h
  by_cases h0 : (runConvert data th rs re).tasks = []
  · rw [if_pos h0] at h
    cases h
  · rw [if_neg h0] at h
    exact (Option.some.inj h).symm

/-- Claim C1 (amended): assuming non-decreasing sample timestamps and
non-negative idle counters, any two distinct produced intervals that both
carry timestamp starts and are not both AFK intervals are disjoint or
adjacent (the earlier one ends no later than the later one starts).
Overlaps do occur, but only between two AFK intervals, or against the
null-start first interval (see the counterexample). -/
theorem no_overlap_amended (data : List Sample) (th : Int) (rs re : Option Int) (l : List Task)
    (hsort : data.Pairwise (fun a a' => a.date ≤ a'.date))
    (hnn : ∀ s ∈ data, 0 ≤ s.inactive)
    (hconv : convert_arbtt_dump data th rs re = some l) :
    l.Pairwise (fun a b => ∀ sa sb, a.Start = some sa → b.Start = some sb →
      ¬(a.Program = "AFK" ∧ b.Program = "AFK") → a.Finish ≤ sb) := by
  obtain ⟨b2, hInv⟩ := inv_runConvert data th rs re hsort hnn
  rw [convert_some data th rs re l hconv, List.pairwise_reverse]
  refine hInv.pw.imp ?_
  intro n o hno
  intro sa sb hsa hsb hnafk
  rw [rel_some n o sb hsb] at hno
  rcases hno with h0 | ⟨-, hnA, hoA⟩ | hF
  · rw [h0] at hsa
    cases hsa
  · exact absurd ⟨hoA, hnA⟩ hnafk
  · exact hF

/-- Witness for C1 (amended): two different active windows at 10 and 20. -/
theorem no_overlap_amended_witness :
    ([⟨"p : t", none, 10, "p"⟩, ⟨"q : u", some 10, 20, "q"⟩] : List Task).Pairwise
      (fun a b => ∀ sa sb, a.Start = some sa → b.Start = some sb →
        ¬(a.Program = "AFK" ∧ b.Program = "AFK") → a.Finish ≤ sb) :=
  no_overlap_amended [⟨10, 0, [⟨true, "p", "t"⟩]⟩, ⟨20, 0, [⟨true, "q", "u"⟩]⟩] 300 none none
    _ (by decide) (by decide) (by decide)

/-- Claim C9 (amended): assuming non-decreasing sample timestamps and
non-negative idle counters, every produced interval's end is a timestamp and
`start ≤ end` holds whenever the start is a timestamp; but the start of the
FIRST interval may be the null sentinel (every later interval has a real
start). -/
theorem start_end_valid_amended (data : List Sample) (th : Int) (rs re : Option Int)
    (l : List Task)
    (hsort : data.Pairwise (fun a a' => a.date ≤ a'.date))
    (hnn : ∀ s ∈ data, 0 ≤ s.inactive)
    (hconv : convert_arbtt_dump data th rs re = some l) :
    (∀ t ∈ l, ∀ sv, t.Start = some sv → sv ≤ t.Finish) ∧
    l.Pairwise (fun _ b => b.Start ≠ none) := by
  obtain ⟨b2, hInv⟩ := inv_runConvert data th rs re hsort hnn
  have hl := convert_some data th rs re l hconv
  constructor
  · intro t ht sv hsv
    refine hInv.sLE t ?_ sv hsv
    rw [hl] at ht
    exact List.mem_reverse.mp ht
  · rw [hl, List.pairwise_reverse]
    refine hInv.pw.imp ?_
    intro n o hno
    exact rel_start_ne_none n o hno

/-- Witness for C9 (amended): an active sample at 5 then an idle sample at 9. -/
theorem start_end_valid_amended_witness :
    (∀ t ∈ ([⟨"a : b", none, 5, "a"⟩, mkAFK 7 9] : List Task), ∀ sv,
        t.Start = some sv → sv ≤ t.Finish) ∧
    ([⟨"a : b", none, 5, "a"⟩, mkAFK 7 9] : List Task).Pairwise
      (fun _ b => b.Start ≠ none) :=
  start_end_valid_amended [⟨5, 0, [⟨true, "a", "b"⟩]⟩, ⟨9, 2, []⟩] 0 none none _
    (by decide) (by decide) (by decide)

/-- Claim C2 (amended): for every in-range idle sample with
`cutoff = timestamp - idle_ms`, the reconstructor removes the trailing run of
intervals whose (timestamp) starts are strictly greater than cutoff, stopping
at the first interval with start ≤ cutoff, at a null-start interval, or at
the empty list.  If it stopped at a timestamp start, the remaining last
interval is truncated to `end = cutoff` exactly when it is not AFK and its
end exceeds cutoff; if it stopped at a null start, the bare except fires:
NO truncation happens and a diagnostic is recorded instead.  In all cases the
new AFK interval is then pushed on top. -/
theorem idle_pop_truncate_amended (th : Int) (rs re : Option Int) (st : ConvState) (s : Sample)
    (hroi : inROI rs re s.date = true) (hidle : is_incative th s = true) :
    ∃ removed kept, st.tasks = removed ++ kept ∧
      (∀ t ∈ removed, ∃ sv, t.Start = some sv ∧ s.date - s.inactive < sv) ∧
      ((kept = [] ∧
          (convertStep th rs re st s).tasks = [mkAFK (s.date - s.inactive) s.date]) ∨
       (∃ t r sv, kept = t :: r ∧ t.Start = some sv ∧ sv ≤ s.date - s.inactive ∧
          ((t.Program ≠ "AFK" ∧ s.date - s.inactive < t.Finish ∧
              (convertStep th rs re st s).tasks =
                mkAFK (s.date - s.inactive) s.date ::
                  { t with Finish := s.date - s.inactive } :: r) ∨
           ((t.Program = "AFK" ∨ t.Finish ≤ s.date - s.inactive) ∧
              (convertStep th rs re st s).tasks =
                mkAFK (s.date - s.inactive) s.date :: t :: r))) ∨
       (∃ t r, kept = t :: r ∧ t.Start = none ∧
          (convertStep th rs re st s).tasks =
            mkAFK (s.date - s.inactive) s.date :: t :: r ∧
          (convertStep th rs re st s).diags = st.diags ++ [st.tasks])) := by
  have hred : convertStep th rs re st s = idleStep st s.date s.inactive := by
    simp [convertStep, hroi, hidle]
  have htasks' : (convertStep th rs re st s).tasks =
      mkAFK (s.date - s.inactive) s.date :: (popTruncate st.tasks (s.date - s.inactive)).1 := by
    rw [hred]
    rfl
  have hdiags' : (convertStep th rs re st s).diags =
      if (popTruncate st.tasks (s.date - s.inactive)).2 then st.diags ++ [st.tasks]
      else st.diags := by
    rw [hred]
    rfl
  by_cases h0 : st.tasks = []
  · refine ⟨[], [], by simp [h0], by simp, Or.inl ⟨rfl, ?_⟩⟩
    rw [htasks']
    have hk : (popTruncate st.tasks (s.date - s.inactive)).1 = [] := by
      simp [popTruncate, h0]
    rw [hk]
  · obtain ⟨removed, hdec, hrem⟩ := popLoop_decomp (s.date - s.inactive) st.tasks
    have hpt : popTruncate st.tasks (s.date - s.inactive) =
        if (popLoop st.tasks (s.date - s.inactive)).2
        then ((popLoop st.tasks (s.date - s.inactive)).1, true)
        else (truncateLast (popLoop st.tasks (s.date - s.inactive)).1 (s.date - s.inactive),
          false) := by
      simp only [popTruncate]
      rw [if_neg h0]
    by_cases hexc : (popLoop st.tasks (s.date - s.inactive)).2
    · rcases popLoop_true (s.date - s.inactive) st.tasks hexc with hnil | ⟨t, r, hcons, hts⟩
      · refine ⟨removed, [], by rw [hdec, hnil], hrem, Or.inl ⟨rfl, ?_⟩⟩
        rw [htasks']
        have hk : (popTruncate st.tasks (s.date - s.inactive)).1 = [] := by
          simp [hpt, hexc, hnil]
        rw [hk]
      · refine ⟨removed, t :: r, by rw [hdec, hcons], hrem,
          Or.inr (Or.inr ⟨t, r, rfl, hts, ?_, ?_⟩)⟩
        · rw [htasks']
          have hk : (popTruncate st.tasks (s.date - s.inactive)).1 = t :: r := by
            simp [hpt, hexc, hcons]
          rw [hk]
        · rw [hdiags']
          have hk : (popTruncate st.tasks (s.date - s.inactive)).2 = true := by
            simp [hpt, hexc]
          rw [hk, if_pos rfl]
    · have hexcf : (popLoop st.tasks (s.date - s.inactive)).2 = false := by
        revert hexc
        cases (popLoop st.tasks (s.date - s.inactive)).2 <;> simp
      obtain ⟨t, r, sv, hcons, hts, hsvc⟩ := popLoop_false (s.date - s.inactive) st.tasks hexcf
      have hkept1 : (popTruncate st.tasks (s.date - s.inactive)).1 =
          truncateLast (t :: r) (s.date - s.inactive) := by
        simp [hpt, hexcf, hcons]
      refine ⟨removed, t :: r, by rw [hdec, hcons], hrem,
        Or.inr (Or.inl ⟨t, r, sv, rfl, hts, hsvc, ?_⟩)⟩
      by_cases htr : t.Program ≠ "AFK" ∧ s.date - s.inactive < t.Finish
      · refine Or.inl ⟨htr.1, htr.2, ?_⟩
        rw [htasks', hkept1]
        simp only [truncateLast]
        rw [if_pos htr]
      · refine Or.inr ⟨?_, ?_⟩
        · rcases not_and_or.mp htr with hA | hB
          · exact Or.inl (not_not.mp hA)
          · exact Or.inr (not_lt.mp hB)
        · rw [htasks', hkept1]
          simp only [truncateLast]
          rw [if_neg htr]

/-- Witness for C2 (amended): one truncatable active task on the stack and an
idle sample at 12 with counter 5 (cutoff 7). -/
theorem idle_pop_truncate_amended_witness :
    ∃ removed kept, (⟨[⟨"q : u", some 5, 10, "q"⟩], none, some 10, []⟩ : ConvState).tasks =
        removed ++ kept ∧
      (∀ t ∈ removed, ∃ sv, t.Start = some sv ∧
        (⟨12, 5, []⟩ : Sample).date - (⟨12, 5, []⟩ : Sample).inactive < sv) ∧
      ((kept = [] ∧
          (convertStep 0 none none ⟨[⟨"q : u", some 5, 10, "q"⟩], none, some 10, []⟩
              ⟨12, 5, []⟩).tasks =
            [mkAFK ((⟨12, 5, []⟩ : Sample).date - (⟨12, 5, []⟩ : Sample).inactive)
              (⟨12, 5, []⟩ : Sample).date]) ∨
       (∃ t r sv, kept = t :: r ∧ t.Start = some sv ∧
          sv ≤ (⟨12, 5, []⟩ : Sample).date - (⟨12, 5, []⟩ : Sample).inactive ∧
          ((t.Program ≠ "AFK" ∧
              (⟨12, 5, []⟩ : Sample).date - (⟨12, 5, []⟩ : Sample).inactive < t.Finish ∧
              (convertStep 0 none none ⟨[⟨"q : u", some 5, 10, "q"⟩], none, some 10, []⟩
                  ⟨12, 5, []⟩).tasks =
                mkAFK ((⟨12, 5, []⟩ : Sample).date - (⟨12, 5, []⟩ : Sample).inactive)
                    (⟨12, 5, []⟩ : Sample).date ::
                  { t with
                    Finish := (⟨12, 5, []⟩ : Sample).date - (⟨12, 5, []⟩ : Sample).inactive } ::
                  r) ∨
           ((t.Program = "AFK" ∨
              t.Finish ≤ (⟨12, 5, []⟩ : Sample).date - (⟨12, 5, []⟩ : Sample).inactive) ∧
              (convertStep 0 none none ⟨[⟨"q : u", some 5, 10, "q"⟩], none, some 10, []⟩
                  ⟨12, 5, []⟩).tasks =
                mkAFK ((⟨12, 5, []⟩ : Sample).date - (⟨12, 5, []⟩ : Sample).inactive)
                    (⟨12, 5, []⟩ : Sample).date :: t :: r))) ∨
       (∃ t r, kept = t :: r ∧ t.Start = none ∧
          (convertStep 0 none none ⟨[⟨"q : u", some 5, 10, "q"⟩], none, some 10, []⟩
              ⟨12, 5, []⟩).tasks =
            mkAFK ((⟨12, 5, []⟩ : Sample).date - (⟨12, 5, []⟩ : Sample).inactive)
                (⟨12, 5, []⟩ : Sample).date :: t :: r ∧
          (convertStep 0 none none ⟨[⟨"q : u", some 5, 10, "q"⟩], none, some 10, []⟩
              ⟨12, 5, []⟩).diags =
            (⟨[⟨"q : u", some 5, 10, "q"⟩], none, some 10, []⟩ : ConvState).diags ++
              [(⟨[⟨"q : u", some 5, 10, "q"⟩], none, some 10, []⟩ : ConvState).tasks])) :=
  idle_pop_truncate_amended 0 none none ⟨[⟨"q : u", some 5, 10, "q"⟩], none, some 10, []⟩
    ⟨12, 5, []⟩ (by decide) (by decide)

end ArbttTimeline
